import Mathlib

/-!
Verification of the pycco section parser and helpers
(`pycco/main.py`, `pycco/languages.py`) via a shallow embedding.

Python strings are modelled as Lean `String` (a wrapped `List Char`); all
operations are implemented by structural recursion on the character list so
that concrete runs reduce inside the kernel.  Whitespace is Python's ASCII
whitespace set (exotic Unicode whitespace is out of scope of the inputs
considered here).  Fallible Python code (raising `TypeError` / `ValueError`)
is modelled with `Except`.
-/

namespace Pycco

/-- Python's ASCII whitespace, as used by `str.strip` / `\s` on our inputs. -/
def isPySpace (c : Char) : Bool :=
  c = ' ' || c = '\t' || c = '\n' || c = '\r' || c = Char.ofNat 11 || c = Char.ofNat 12

/-- `str.lstrip()` -/
def pyLstrip (s : String) : String := ⟨s.data.dropWhile isPySpace⟩

/-- `str.rstrip()` -/
def pyRstrip (s : String) : String := ⟨((s.data.reverse.dropWhile isPySpace)).reverse⟩

/-- `str.strip()` -/
def pyStrip (s : String) : String := pyRstrip (pyLstrip s)

/-- `str.startswith(p)` -/
def pyStartsWith (s p : String) : Bool := p.data.isPrefixOf s.data

/-- `str.endswith(p)` -/
def pyEndsWith (s p : String) : Bool := p.data.isSuffixOf s.data

/-- `str.removeprefix(p)` -/
def pyRemoveStart (s p : String) : String :=
  if pyStartsWith s p then ⟨s.data.drop p.data.length⟩ else s

/-- `str.removesuffix(p)` -/
def pyRemoveEnd (s p : String) : String :=
  if pyEndsWith s p then ⟨s.data.take (s.data.length - p.data.length)⟩ else s

/-- `s[:-1]` (drop the final character; identity on `""`). -/
def pyDropLast (s : String) : String := ⟨s.data.dropLast⟩

/-- `s[n:]` by code points. -/
def pyDropChars (n : Nat) (s : String) : String := ⟨s.data.drop n⟩

/-- `str.split(sep)` for a one-character separator, Python semantics
(`"".split(c) == [""]`, empty pieces kept). -/
def splitChar (sep : Char) : List Char → List (List Char)
  | [] => [[]]
  | c :: rest =>
    if c = sep then [] :: splitChar sep rest
    else
      match splitChar sep rest with
      | l :: ls => (c :: l) :: ls
      | [] => [[c]]

/-- The lines of a source text: `source_code.split("\n")`. -/
def linesOf (s : String) : List String := (splitChar '\n' s.data).map (fun l => ⟨l⟩)

/-- `str.replace(pat, rep)` for nonempty `pat` (leftmost, non-overlapping),
implemented with a fuel argument so that it reduces structurally. -/
def replaceAllAux (pat rep : List Char) : Nat → List Char → List Char
  | 0, s => s
  | _ + 1, [] => []
  | fuel + 1, c :: rest =>
    if pat ≠ [] && pat.isPrefixOf (c :: rest) then
      rep ++ replaceAllAux pat rep fuel ((c :: rest).drop pat.length)
    else
      c :: replaceAllAux pat rep fuel rest

/-- `str.replace(pat, rep)` (our call sites always have nonempty `pat`). -/
def pyReplace (s pat rep : String) : String :=
  ⟨replaceAllAux pat.data rep.data s.data.length s.data⟩

/-- Literal-atom tail of `re.match(r"\s*SYM...", line)`: try to match
`\s*` (greedy, with backtracking) followed by the literal `sym`, returning
the remainder after `sym`. -/
def matchSymAfterWs (sym : List Char) : List Char → Option (List Char)
  | [] => if sym.isPrefixOf [] then some [] else none
  | c :: rest =>
    if isPySpace c then
      match matchSymAfterWs sym rest with
      | some r => some r
      | none => if sym.isPrefixOf (c :: rest) then some ((c :: rest).drop sym.length) else none
    else
      if sym.isPrefixOf (c :: rest) then some ((c :: rest).drop sym.length) else none

/-- Semantics of the compiled `comment_matcher` regex `^\s*{sym}\s?` on a
line: `some rest` iff `re.match` succeeds, where `rest` is the result of
`re.sub(comment_matcher, "", line)`.  This is the literal-symbol semantics,
which is exact for every comment symbol in `supported_languages` (none of
them contains a regex metacharacter, see `reMetachars` below). -/
def commentSub (sym : String) (line : String) : Option String :=
  (matchSymAfterWs sym.data line.data).map fun r =>
    match r with
    | c :: rest => if isPySpace c then ⟨rest⟩ else ⟨c :: rest⟩
    | [] => ""

/-- `re.match(r"\s*", line).group(0)`: the leading whitespace run. -/
def leadingWs (line : String) : String := ⟨line.data.takeWhile isPySpace⟩

/-- `'\n'.join(l)` -/
def joinNl (l : List String) : String := String.intercalate "\n" l

-- === Data model ===

/-- One parsed section: the `{"docs_text": ..., "code_text": ...}` record
appended by `save` in `parse`. -/
structure Section where
  docs_text : String
  code_text : String
deriving Repr, DecidableEq

/-- A language entry built by `languages.lang`: `multi` is present exactly
when both `multistart` and `multiend` were given (the constructor updates
the dict only when both are non-None). -/
structure Language where
  name : String
  comment_symbol : String
  multi : Option (String × String)
deriving Repr, DecidableEq

/-- A raised Python exception. -/
inductive PyErr where
  | typeError : PyErr
  | valueError (msg : String) : PyErr
deriving Repr, DecidableEq

def lang (name sym : String) : Language := ⟨name, sym, none⟩

def langMulti (name sym ms me : String) : Language := ⟨name, sym, some (ms, me)⟩

def c_lang : Language := langMulti "c" "//" "/*" "*/"

/-- `supported_languages` from `languages.py`, in dict (insertion) order.
`\x7b`/`\x7d` are the literal brace characters of the matlab and haskell
delimiters. -/
def supported_languages : List (String × Language) :=
  [ (".coffee", langMulti "coffee-script" "#" "###" "###")
  , (".pl", lang "perl" "#")
  , (".sql", langMulti "sql" "--" "/*" "*/")
  , (".sh", lang "bash" "#")
  , (".c", c_lang)
  , (".h", c_lang)
  , (".cl", c_lang)
  , (".css", langMulti "css" "//" "/*" "*/")
  , (".cpp", langMulti "cpp" "//" "/*" "*/")
  , (".js", langMulti "javascript" "//" "/*" "*/")
  , (".rb", langMulti "ruby" "#" "=begin" "=end")
  , (".py", langMulti "python" "#" "\"\"\"" "\"\"\"")
  , (".pyx", langMulti "cython" "#" "\"\"\"" "\"\"\"")
  , (".scm", langMulti "scheme" ";;" "#|" "|#")
  , (".lua", langMulti "lua" "--" "--[[" "--]]")
  , (".erl", lang "erlang" "%%")
  , (".tcl", lang "tcl" "#")
  , (".hs", langMulti "haskell" "--" "\x7b-" "-\x7d")
  , (".r", lang "r" "#")
  , (".R", lang "r" "#")
  , (".jl", langMulti "julia" "#" "#=" "=#")
  , (".m", langMulti "matlab" "%" "%\x7b" "%\x7d")
  , (".do", langMulti "stata" "//" "/*" "*/") ]

-- === The section parser (`parse` in main.py) ===

/-- The inner `save(docs, code)` helper: append a section only when at least
one of the two strings is non-empty (Python truthiness). -/
def save (sections : List Section) (docs code : String) : List Section :=
  if docs = "" ∧ code = "" then sections else sections ++ [⟨docs, code⟩]

/-- One step of the first (normalization) loop of `parse`, for a language
with both multi-line delimiters `ms`/`me`; returns the converted line and
the updated `in_multi_comment` flag. -/
def convertLine (sym ms me : String) (inMulti : Bool) (line : String) : String × Bool :=
  let stripped := pyStrip line
  if pyStartsWith stripped ms && pyEndsWith stripped me then
    -- Case 3: multi-line comment opener and closer on a single line
    let s1 := pyRemoveEnd stripped me
    (sym ++ " " ++ pyRemoveStart s1 ms, inMulti)
  else if pyStartsWith stripped ms && !inMulti then
    -- Case 1: line starts a multi-line comment
    (sym ++ " " ++ pyRemoveStart stripped ms, true)
  else if inMulti && !pyEndsWith stripped me then
    -- Case 6: a line inside a multi-line comment
    (sym ++ " " ++ stripped, true)
  else if inMulti && pyEndsWith stripped me then
    -- Case 2: line ends the multi-line comment
    (sym ++ " " ++ pyRemoveEnd stripped me, false)
  else
    -- Cases 5 and 7: plain code (possibly with a trailing comment)
    (line, inMulti)

/-- The first loop of `parse`.  When the language has no multi-line
delimiters, `multi_comment_start` is `None` and the very first
`stripped_line.startswith(multi_comment_start)` raises `TypeError`
("startswith first arg must be str or a tuple of str, not NoneType"). -/
def convertLines (sym : String) (multi : Option (String × String)) :
    List String → Bool → Except PyErr (List String)
  | [], _ => .ok []
  | line :: rest, inMulti =>
    match multi with
    | none => .error .typeError
    | some (ms, me) =>
      let p := convertLine sym ms me inMulti line
      (convertLines sym (some (ms, me)) rest p.2).map (fun ls => p.1 :: ls)

/-- The mutable state of the second (section-splitting) loop of `parse`.
`indentLevel` starts out unassigned in Python; the `multiLine` branch that
reads it is only reachable after the branch that assigns it (see
`parseStep`), so initializing it to `""` is unobservable. -/
structure PState where
  sections : List Section
  hasCode : Bool
  docsText : String
  codeText : String
  multiLine : Bool
  multiString : Bool
  processAsCode : Bool
  indentLevel : String
deriving Repr, DecidableEq

def initState : PState := ⟨[], false, "", "", false, false, false, ""⟩

/-- The branch of the second loop taken when a multi-line delimiter is found
at the start or end of the line (lines 290-316 of main.py).  Returns the
updated state and the (possibly rewritten) `line` variable. -/
def multiBranch (ms me : String) (st : PState) (line : String) : PState × String :=
  let stripped := pyStrip line
  let ml1 := !st.multiLine
  let ml2 :=
    if ml1 && pyEndsWith stripped me && decide (stripped.data.length > me.data.length) then
      false
    else ml1
  if (!pyStartsWith stripped ms && !ml2) || st.multiString then
    let p := if st.multiString then (false, false) else (ml2, true)
    ({ st with multiLine := p.1, multiString := p.2, processAsCode := true }, line)
  else
    let line1 := pyReplace (pyReplace line ms "") me ""
    let docs1 := st.docsText ++ pyStrip line1 ++ "\n"
    let indent := leadingWs line1
    if st.hasCode && pyStrip docs1 ≠ "" then
      ({ st with
          sections := save st.sections docs1 (pyDropLast st.codeText)
          codeText := ⟨((splitChar '\n' st.codeText.data)).getLastD []⟩
          hasCode := false
          docsText := ""
          multiLine := ml2
          indentLevel := indent }, line1)
    else
      ({ st with docsText := docs1, multiLine := ml2, indentLevel := indent }, line1)

/-- The `elif multi_line` branch (lines 318-323): documentation continuation
lines, with the indent prefix of the run's first line stripped when the line
starts with that many spaces (`re.match(' {n}', line)`). -/
def multiLineBranch (st : PState) (line : String) : PState × String :=
  let n := st.indentLevel.data.length
  let docs1 :=
    if (List.replicate n ' ').isPrefixOf line.data then
      st.docsText ++ pyDropChars n line ++ "\n"
    else
      st.docsText ++ line ++ "\n"
  ({ st with docsText := docs1 }, line)

/-- The `elif re.match(comment_matcher, line)` / final `else` branches
(lines 325-332). -/
def commentBranch (sym : String) (st : PState) (line : String) : PState × String :=
  match commentSub sym line with
  | some rest =>
    let st1 :=
      if st.hasCode then
        { st with
            sections := save st.sections st.docsText st.codeText
            hasCode := false, docsText := "", codeText := "" }
      else st
    ({ st1 with docsText := st1.docsText ++ rest ++ "\n", processAsCode := false }, line)
  | none => ({ st with processAsCode := true }, line)

/-- One iteration of the second loop of `parse` (lines 284-336): classify the
line, then append it to the code buffer when `process_as_code` holds. -/
def parseStep (sym : String) (multi : Option (String × String)) (st : PState)
    (line : String) : PState :=
  let branch :=
    match multi with
    | some (ms, me) =>
      if ms ≠ "" && me ≠ "" &&
          (pyStartsWith (pyLstrip line) ms || pyEndsWith (pyRstrip line) ms ||
           pyStartsWith (pyLstrip line) me || pyEndsWith (pyRstrip line) me) then
        multiBranch ms me st line
      else if st.multiLine then multiLineBranch st line
      else commentBranch sym st line
    | none =>
      if st.multiLine then multiLineBranch st line
      else commentBranch sym st line
  let st1 := branch.1
  if st1.processAsCode then
    { st1 with hasCode := true, codeText := st1.codeText ++ branch.2 ++ "\n" }
  else st1

/-- The output of the external dycco parser for one ordinal: its `docs` and
`code` lists, whose entries may be `None`. -/
structure DyccoSec where
  docs : List (Option String)
  code : List (Option String)

/-- `filter(None, xs)`: keep the truthy entries (drop `None` and `""`). -/
def pyFilterTruthy (l : List (Option String)) : List String :=
  l.filterMap fun o =>
    match o with
    | some s => if s = "" then none else some s
    | none => none

/-- Conversion of dycco's sections into pycco sections (lines 215-221 of
main.py); the input list is dycco's output already sorted by ordinal. -/
def pythonSections (dycco : List DyccoSec) : List Section :=
  dycco.foldl
    (fun secs v =>
      let docs := joinNl (pyFilterTruthy v.docs)
      let code := pyRemoveStart (pyRemoveStart (joinNl (pyFilterTruthy v.code)) "\"\"\"") "'''"
      save secs docs code)
    []

/-- `parse(source_code, source_language)` from main.py.  The external dycco
parser (used only for Python) is passed as a collaborator `dp`; it may fail
(dycco raises `SyntaxError` on invalid Python). -/
def parse (dp : String → Except PyErr (List DyccoSec)) (source_code : String)
    (source_language : Language) : Except PyErr (List Section) :=
  let lines := linesOf source_code
  if source_language.name = "python" then
    (dp source_code).map pythonSections
  else
    let lines1 :=
      match lines with
      | l0 :: rest => if pyStartsWith l0 "#!" then rest else lines
      | [] => lines
    (convertLines source_language.comment_symbol source_language.multi lines1 false).map
      fun converted =>
        let final := converted.foldl (parseStep source_language.comment_symbol source_language.multi) initState
        save final.sections final.docsText final.codeText

/-- A trivial dycco collaborator (never consulted on non-Python languages). -/
def dycco0 : String → Except PyErr (List DyccoSec) := fun _ => .ok []

instance {ε α : Type} [DecidableEq ε] [DecidableEq α] : DecidableEq (Except ε α)
  | .ok a, .ok b =>
    if h : a = b then .isTrue (by rw [h]) else .isFalse (by intro hc; cases hc; exact h rfl)
  | .error a, .error b =>
    if h : a = b then .isTrue (by rw [h]) else .isFalse (by intro hc; cases hc; exact h rfl)
  | .ok _, .error _ => .isFalse (by intro hc; cases hc)
  | .error _, .ok _ => .isFalse (by intro hc; cases hc)

-- === The language compiler (`compile_language` in main.py) ===

/-- The source pattern of the derived comment-line matcher:
`r"^\s*{}\s?".format(comment_symbol)` — the symbol is interpolated verbatim,
with no escaping. -/
def comment_matcher_pattern (comment_symbol : String) : String :=
  "^\\s*" ++ comment_symbol ++ "\\s?"

/-- `divider_text`: `"\n{}DIVIDER\n".format(comment_symbol)`. -/
def divider_text (comment_symbol : String) : String :=
  "\n" ++ comment_symbol ++ "DIVIDER\n"

/-- The source pattern of `divider_html`:
`r'\n*<span class="c[1]?">{}DIVIDER</span>\n*'.format(comment_symbol)`,
again with the symbol interpolated verbatim. -/
def divider_html_pattern (comment_symbol : String) : String :=
  "\\n*<span class=\"c[1]?\">" ++ comment_symbol ++ "DIVIDER</span>\\n*"

/-- The characters Python's `re.escape` prefixes with a backslash
(`'()[]\x7b\x7d?*+-|^$\\.&~# \t\n\r\v\f'`). -/
def reEscapedChars : List Char :=
  ['(', ')', '[', ']', '\x7b', '\x7d', '?', '*', '+', '-', '|', '^', '$', '\\',
   '.', '&', '~', '#', ' ', '\t', '\n', '\r', Char.ofNat 11, Char.ofNat 12]

/-- Python's `re.escape`. -/
def pyReEscape (s : String) : String :=
  ⟨s.data.foldr (fun c acc => if c ∈ reEscapedChars then '\\' :: c :: acc else c :: acc) []⟩

/-- The regex metacharacters that change matching behaviour outside a
character class (unlike, e.g., `#` or `-`, which `re.escape` escapes only
defensively). -/
def reMetachars : List Char :=
  ['(', ')', '[', ']', '\x7b', '\x7d', '?', '*', '+', '|', '^', '$', '\\', '.']

-- === Language selection (`get_language` in main.py) ===

/-- Python truthiness of the `source` argument (`if source:`). -/
def pyTruthyOpt : Option String → Bool
  | some s => s ≠ ""
  | none => false

/-- `os.path.basename` (POSIX): the part after the last `/`. -/
def pyBasename (p : String) : String := ⟨(p.data.reverse.takeWhile (· ≠ '/')).reverse⟩

/-- The suffix captured by `re.match(r'.*(\..+)', basename)`: since `.` does
not match a newline, the match is confined to the first line; the group
starts at the last `.` of that line that is followed by at least one more
character, and extends to the line's end. -/
def lastDotSuffix : List Char → Option (List Char)
  | [] => none
  | c :: rest =>
    match lastDotSuffix rest with
    | some s => some s
    | none => if c = '.' ∧ rest ≠ [] then some (c :: rest) else none

/-- `m.group(1)` of the extension match in `get_language`, or `none` when
the regex does not match. -/
def extMatch (basename : String) : Option String :=
  (lastDotSuffix ((splitChar '\n' basename.data).headD [])).map (fun l => ⟨l⟩)

/-- Scan of `supported_languages.values()` for a matching `name` (the first
match is returned, as in the Python `for` loop). -/
def findByName (n : String) : Option Language :=
  (supported_languages.map Prod.snd).find? (fun L => L.name = n)

/-- The extension-table lookup of `get_language` (lines 523-526): `none`
when `source` is falsy, the regex does not match, or the extension is not a
key of `supported_languages`. -/
def extLookup (source : Option String) : Option Language :=
  if pyTruthyOpt source then
    match extMatch (pyBasename (source.getD "")) with
    | some ext => (supported_languages.find? (fun p => p.1 = ext)).map Prod.snd
    | none => none
  else none

/-- `get_language(source, code, language_name)` from main.py.  The Pygments
`guess_lexer` is an external collaborator, modelled as a function returning
the guessed lexer name already lower-cased (`guess_lexer(code).name.lower()`),
or `none` when it raises its `ValueError` subclass. -/
def get_language (source : Option String) (code : String) (language_name : Option String)
    (guess_lexer : String → Option String) : Except PyErr Language :=
  match language_name with
  | some ln =>
    match findByName ln with
    | some L => .ok L
    | none => .error (.valueError ("Unknown forced language: " ++ ln))
  | none =>
    match extLookup source with
    | some L => .ok L
    | none =>
      match guess_lexer code with
      | some gname =>
        match findByName gname with
        | some L => .ok L
        | none => .error (.valueError ("Can't figure out the language! " ++ gname))
      | none => .error (.valueError "Can't figure out the language! None")

-- === Destination paths (`destination` in main.py) ===

/-- `os.path.split` (POSIX): split at the last `/`; the head keeps no
trailing slashes unless it consists of slashes only. -/
def pySplitPath (p : String) : String × String :=
  let cs := p.data
  let tail := (cs.reverse.takeWhile (· ≠ '/')).reverse
  let head := cs.take (cs.length - tail.length)
  let head1 := if head ≠ [] ∧ head.any (· ≠ '/') then (head.reverse.dropWhile (· = '/')).reverse else head
  (⟨head1⟩, ⟨tail⟩)

/-- `os.path.join(a, b)` (POSIX, two arguments). -/
def pyJoin (a b : String) : String :=
  if pyStartsWith b "/" then b
  else if a = "" ∨ pyEndsWith a "/" then a ++ b
  else a ++ "/" ++ b

/-- `re.sub(r"\.[^.]*$", "", filename)`: drop everything from the last dot
(inclusive) to the end, when the name contains a dot. -/
def stripLastExt (f : String) : String :=
  if f.data.contains '.' then ⟨((f.data.reverse.dropWhile (· ≠ '.')).reverse).dropLast⟩ else f

/-- `os.path.splitext` (POSIX): split the extension at the last dot of the
basename, unless every character of the basename before that dot is a dot. -/
def pySplitExt (p : String) : String × String :=
  let cs := p.data
  let base := (cs.reverse.takeWhile (· ≠ '/')).reverse
  let stem := base.reverse.dropWhile (· ≠ '.')
  if stem ≠ [] ∧ (stem.drop 1).reverse.any (· ≠ '.') then
    let ext := '.' :: (base.reverse.takeWhile (· ≠ '.')).reverse
    (⟨cs.take (cs.length - ext.length)⟩, ⟨ext⟩)
  else (p, "")

/-- `destination(filepath, preserve_paths, outdir, replace_dots, extension)`
from main.py.  The `if not outdir: raise TypeError` guard is handled by the
callers modelled here (`preprocess` checks it first); `os.sep` is `/`. -/
def destination (filepath : String) (preserve_paths : Bool) (outdir : String)
    (replace_dots : Bool) (extension : String) : String :=
  let p := pySplitPath filepath
  let name := stripLastExt p.2
  let name :=
    if replace_dots then
      ⟨(name ++ (pySplitExt filepath).2).data.map (fun c => if c = '.' then '_' else c)⟩
    else name
  let name := if preserve_paths then pyJoin p.1 name else name
  let dest := pyJoin outdir (name ++ "." ++ extension)
  if pyStartsWith dest outdir then dest else outdir ++ "/" ++ dest

-- === The cross-reference preprocessor (`preprocess` in main.py) ===

/-- The backtick character (used by the `(?<!`)` lookbehind). -/
def backtickChar : Char := Char.ofNat 96

/-- `sanitize_section_name`: `"-".join(name.lower().strip().split(" "))`. -/
def sanitize_section_name (name : String) : String :=
  ⟨(pyStrip ⟨name.data.map Char.toLower⟩).data.map (fun c => if c = ' ' then '-' else c)⟩

/-- Matching of `re.sub(r'^([=]+)([^=]+)[=]*\s*$', replace_section_name, c)`.
Anchored by `^` (no MULTILINE), the pattern can only match at position 0,
and the match must cover the whole string (`\s*` greedily absorbs a final
newline before `$`): group 1 is the leading run of `=`, group 2 the
following maximal run of non-`=` characters, and the remainder must be a
run of `=` followed by whitespace only. -/
def sectionNameSub (c : String) : String :=
  let cs := c.data
  let eqs := cs.takeWhile (· = '=')
  let r := cs.drop eqs.length
  let g2 := r.takeWhile (· ≠ '=')
  let r1 := r.drop g2.length
  if eqs = [] ∨ g2 = [] ∨ ¬ (r1.dropWhile (· = '=')).all isPySpace then c
  else
    let lvl : String := ⟨eqs.map (fun _ => '#')⟩
    let name : String := ⟨g2⟩
    let id := sanitize_section_name name
    lvl ++ " <span id=\"" ++ id ++ "\" href=\"" ++ id ++ "\">" ++ name ++ "</span>"

/-- The lazy group of `\[\[(.+?)\]\]`: the shortest non-empty,
newline-free run of characters followed by `]]`; returns the group and the
text after the closing `]]`. -/
def lazyScan : List Char → Option (List Char × List Char)
  | [] => none
  | c :: cs =>
    if c = '\n' then none
    else
      match cs with
      | ']' :: ']' :: rest => some ([c], rest)
      | _ => (lazyScan cs).map (fun p => (c :: p.1, p.2))

/-- `replace_crossref(match)`: note that a target containing more than one
`#` makes the two-element unpacking of `split('#')` raise `ValueError`. -/
def replaceCrossref (preserve_paths : Bool) (outdir : String) (target : String) :
    Except PyErr String :=
  if target.data.contains '#' then
    match splitChar '#' target.data with
    | [n, a] =>
      .ok (" [" ++ (⟨n⟩ : String) ++ "](" ++
        pyBasename (destination ⟨n⟩ preserve_paths outdir false "html") ++ "#" ++
        (⟨a⟩ : String) ++ ")")
    | _ => .error (.valueError "too many values to unpack")
  else
    .ok (" [" ++ target ++ "](" ++
      pyBasename (destination target preserve_paths outdir false "html") ++ ")")

/-- Left-to-right scan of `re.sub(r'(?<!`)\[\[(.+?)\]\]', replace_crossref, c)`:
`prev` is the character before the current position in the original string
(for the lookbehind); the fuel argument (instantiated with the text length)
only makes the recursion structural and is never exhausted. -/
def crossrefAux (preserve_paths : Bool) (outdir : String) :
    Nat → Option Char → List Char → Except PyErr (List Char)
  | _, _, [] => .ok []
  | 0, _, c :: rest => .ok (c :: rest)
  | fuel + 1, prev, c :: rest =>
    if c = '[' ∧ rest.head? = some '[' ∧ prev ≠ some backtickChar then
      match lazyScan rest.tail with
      | some (t, after) =>
        (replaceCrossref preserve_paths outdir ⟨t⟩).bind fun rep =>
          (crossrefAux preserve_paths outdir fuel (some ']') after).map
            fun tail => rep.data ++ tail
      | none =>
        (crossrefAux preserve_paths outdir fuel (some c) rest).map fun tail => c :: tail
    else
      (crossrefAux preserve_paths outdir fuel (some c) rest).map fun tail => c :: tail

/-- `preprocess(comment, preserve_paths, outdir)` from main.py: the
section-name rewrite, then the cross-reference rewrite.  A falsy `outdir`
raises `TypeError` before any rewriting. -/
def preprocess (comment : String) (preserve_paths : Bool) (outdir : String) :
    Except PyErr String :=
  if outdir = "" then .error .typeError
  else
    let c1 := sectionNameSub comment
    (crossrefAux preserve_paths outdir c1.data.length none c1.data).map (fun l => ⟨l⟩)

/-- The generic-path languages of the descriptor table that carry both
multi-line delimiters. -/
def genericMultiLangs : List Language :=
  (supported_languages.map Prod.snd).filter (fun L => L.multi.isSome && L.name ≠ "python")

-- === Claim theorems ===

/-- Claim C1 (code_bug evidence): the generic line-oriented path does raise.
For the table's perl entry (no multi-line delimiters, so
`multi_comment_start` is `None`), `parse` raises `TypeError` on the plain
one-line input `"x = 1"`, because the normalization pass evaluates
`stripped_line.startswith(None)`. -/
theorem parse_perl_typeerror :
    parse dycco0 "x = 1" (lang "perl" "#") = .error .typeError := by decide

/-- Claim C3, counterexample: for the C language (generic path, both
delimiters present), the input consisting of two blank lines parses to one
section holding the blank lines as code, not to the empty sequence. -/
theorem parse_blank_counterexample :
    parse dycco0 "\n" c_lang = .ok [⟨"", "\n\n"⟩] ∧
      parse dycco0 "\n" c_lang ≠ .ok [] := by decide

/-- Claim C4, counterexample: under julia (marker `#`, generic path), the
two-line input `"# hello\nx = 1"` does not yield a section whose
`docs_text` is the bare trimmed comment text `"hello"`: the parser appends
a newline to every documentation line. -/
theorem parse_comment_code_counterexample :
    parse dycco0 "# hello\nx = 1" (langMulti "julia" "#" "#=" "=#") ≠
      .ok [⟨"hello", "x = 1\n"⟩] := by decide

/-- Claim C4, amended: for each generic-path language of the table whose
single-line marker is `#` and which carries multi-line delimiters (so the
normalization pass does not fault) — coffee-script, ruby, cython and julia —
parsing a full-line comment followed by one code line yields exactly one
section whose `docs_text` is the comment's trimmed text *plus a trailing
newline* and whose `code_text` is the code line plus a trailing newline. -/
theorem parse_comment_code_line :
    parse dycco0 "# hello\nx = 1" (langMulti "coffee-script" "#" "###" "###") =
        .ok [⟨"hello\n", "x = 1\n"⟩] ∧
      parse dycco0 "# hello\nx = 1" (langMulti "ruby" "#" "=begin" "=end") =
        .ok [⟨"hello\n", "x = 1\n"⟩] ∧
      parse dycco0 "# hello\nx = 1" (langMulti "cython" "#" "\"\"\"" "\"\"\"") =
        .ok [⟨"hello\n", "x = 1\n"⟩] ∧
      parse dycco0 "# hello\nx = 1" (langMulti "julia" "#" "#=" "=#") =
        .ok [⟨"hello\n", "x = 1\n"⟩] := by decide

/-- Claim C5, counterexample: for the C language on `"/* hello */\nx = 1\n"`,
parsing yields exactly ONE section (so the code is not in a separate
section), and its documentation text is `" hello \n"`, not `hello`: the
normalization `' '.join(['//', ' hello '])` keeps the spaces around the
inner text and the comment matcher strips only one of them. -/
theorem parse_single_line_block_counterexample :
    (parse dycco0 "/* hello */\nx = 1\n" c_lang).map List.length = .ok 1 ∧
      (parse dycco0 "/* hello */\nx = 1\n" c_lang).map (List.map Section.docs_text) =
        .ok [" hello \n"] := by decide

/-- Claim C5, amended: the single-line block comment is normalized to a
single-line-comment line, and the input parses to exactly one section that
carries both the documentation `" hello \n"` (inner text with its
surrounding spaces and a trailing newline) and the code `"x = 1\n\n"` — the
code shares the section with the docs instead of forming a separate one. -/
theorem parse_single_line_block :
    parse dycco0 "/* hello */\nx = 1\n" c_lang = .ok [⟨" hello \n", "x = 1\n\n"⟩] := by
  decide

/-- Claim C6, counterexample: for the C language on `"*/\nx = 1"`, the stray
block-comment close delimiter sends the splitter into documentation mode,
the code line `"x = 1"` is absorbed into `docs_text`, and the concatenated
`code_text` of the emitted sections is empty — the code line is not
reproduced. -/
theorem parse_roundtrip_counterexample :
    parse dycco0 "*/\nx = 1" c_lang = .ok [⟨"\nx = 1\n", ""⟩] ∧
      (parse dycco0 "*/\nx = 1" c_lang).map
          (fun ss => String.join (ss.map Section.code_text)) = .ok "" := by decide

/-- Claim C7, counterexample: `compile_language` does not escape the comment
symbol before interpolating it into the matcher and divider patterns
(`r"^\s*{}\s?".format(comment_symbol)`): already for the table's own symbol
`#` — and for a symbol with a metacharacter such as `c*` — the built
pattern differs from the pattern an escaped symbol would give. -/
theorem compile_language_no_escape :
    comment_matcher_pattern "#" ≠ "^\\s*" ++ pyReEscape "#" ++ "\\s?" ∧
      comment_matcher_pattern "c*" ≠ "^\\s*" ++ pyReEscape "c*" ++ "\\s?" ∧
      divider_html_pattern "c*" ≠
        "\\n*<span class=\"c[1]?\">" ++ pyReEscape "c*" ++ "DIVIDER</span>\\n*" := by
  decide

/-- Claim C7, amended: the symbol is interpolated verbatim, and this is
harmless for the descriptor table because no supported comment symbol
contains a regex metacharacter that changes matching (the symbols `#`,
`//`, `--`, `;;`, `%%`, `%` are all pattern-literal), so each compiled
matcher still matches its marker literally. -/
theorem compile_language_table_literal :
    ∀ p ∈ supported_languages,
      (p.2.comment_symbol.data.all (fun c => ¬ c ∈ reMetachars)) ∧
        comment_matcher_pattern p.2.comment_symbol =
          "^\\s*" ++ p.2.comment_symbol ++ "\\s?" := by decide

/-- Witness for `compile_language_table_literal` at the `.c` entry. -/
theorem compile_language_table_literal_witness :
    (("//" : String).data.all (fun c => ¬ c ∈ reMetachars)) ∧
      comment_matcher_pattern "//" = "^\\s*//\\s?" :=
  compile_language_table_literal (".c", c_lang) (by decide)

/-- Claim C10: for every generic-path language of the table carrying both
multi-line delimiters, parsing the empty string yields exactly one section
with empty `docs_text` and `code_text` `"\n"` (the empty string splits into
one empty line, which is classified as code and emitted with a trailing
newline). -/
theorem parse_empty_one_section :
    ∀ L ∈ genericMultiLangs, parse dycco0 "" L = .ok [⟨"", "\n"⟩] := by decide

/-- Witness for `parse_empty_one_section` at the C language. -/
theorem parse_empty_one_section_witness :
    parse dycco0 "" c_lang = .ok [⟨"", "\n"⟩] :=
  parse_empty_one_section c_lang (by decide)

-- === Lemmas: every emitted section is non-empty (claim C2) ===

/-- The invariant of claim C2: a section carries docs or code. -/
def goodSec (s : Section) : Prop := s.docs_text ≠ "" ∨ s.code_text ≠ ""

lemma mem_save {secs : List Section} {d c : String} {s : Section}
    (h : s ∈ save secs d c) : s ∈ secs ∨ (s = ⟨d, c⟩ ∧ ¬(d = "" ∧ c = "")) := by
  unfold save at h
  split at h
  · exact .inl h
  · rcases List.mem_append.1 h with h1 | h1
    · exact .inl h1
    · rename_i hne
      exact .inr ⟨List.mem_singleton.1 h1, hne⟩

lemma save_inv {secs : List Section} {d c : String}
    (h : ∀ s ∈ secs, goodSec s) : ∀ s ∈ save secs d c, goodSec s := by
  intro s hs
  rcases mem_save hs with h1 | ⟨rfl, hne⟩
  · exact h s h1
  · exact not_and_or.mp hne

lemma multiBranch_inv {ms me line : String} {st : PState}
    (h : ∀ s ∈ st.sections, goodSec s) :
    ∀ s ∈ (multiBranch ms me st line).1.sections, goodSec s := by
  dsimp only [multiBranch]
  repeat' split
  all_goals first
    | exact h
    | exact save_inv h

lemma multiLineBranch_inv {line : String} {st : PState}
    (h : ∀ s ∈ st.sections, goodSec s) :
    ∀ s ∈ (multiLineBranch st line).1.sections, goodSec s := h

lemma commentBranch_inv {sym line : String} {st : PState}
    (h : ∀ s ∈ st.sections, goodSec s) :
    ∀ s ∈ (commentBranch sym st line).1.sections, goodSec s := by
  dsimp only [commentBranch]
  repeat' split
  all_goals first
    | exact h
    | exact save_inv h

lemma parseStep_inv {sym : String} {multi : Option (String × String)} {st : PState}
    {line : String} (h : ∀ s ∈ st.sections, goodSec s) :
    ∀ s ∈ (parseStep sym multi st line).sections, goodSec s := by
  rcases multi with _ | ⟨ms, me⟩ <;> dsimp only [parseStep] <;> repeat' split
  all_goals first
    | exact h
    | exact multiBranch_inv h
    | exact multiLineBranch_inv h
    | exact commentBranch_inv h

lemma foldl_parseStep_inv {sym : String} {multi : Option (String × String)}
    (lines : List String) (st : PState) (h : ∀ s ∈ st.sections, goodSec s) :
    ∀ s ∈ (lines.foldl (parseStep sym multi) st).sections, goodSec s := by
  induction lines generalizing st with
  | nil => exact h
  | cons l rest ih => exact ih _ (parseStep_inv h)

lemma pythonSections_inv (dycco : List DyccoSec) :
    ∀ s ∈ pythonSections dycco, goodSec s := by
  unfold pythonSections
  generalize hacc : ([] : List Section) = acc
  have hbase : ∀ s ∈ acc, goodSec s := by rw [← hacc]; intro s hs; cases hs
  clear hacc
  induction dycco generalizing acc with
  | nil => exact hbase
  | cons v rest ih => exact ih _ (save_inv hbase)

/-- Claim C2: for every language (the generic path and the delegated Python
path alike), every dycco collaborator and every input, each section of a
successful `parse` carries a non-empty `docs_text` or a non-empty
`code_text` — `save` appends a section only under that condition. -/
theorem parse_sections_nonempty (dp : String → Except PyErr (List DyccoSec))
    (src : String) (L : Language) (secs : List Section)
    (h : parse dp src L = .ok secs) :
    ∀ s ∈ secs, s.docs_text ≠ "" ∨ s.code_text ≠ "" := by
  unfold parse at h
  split at h
  · cases hdp : dp src with
    | ok l =>
      rw [hdp] at h
      simp only [Except.map, Except.ok.injEq] at h
      subst h
      exact pythonSections_inv l
    | error e => rw [hdp] at h; simp [Except.map] at h
  · dsimp only at h
    generalize convertLines L.comment_symbol L.multi _ false = res at h
    cases res with
    | error e => simp [Except.map] at h
    | ok converted =>
      simp only [Except.map, Except.ok.injEq] at h
      subst h
      exact save_inv (foldl_parseStep_inv _ _ (by intro s hs; cases hs))

/-- Witness for `parse_sections_nonempty`: the single section of
`parse("x", c)` satisfies the invariant. -/
theorem parse_sections_nonempty_witness :
    (Section.mk "" "x\n").docs_text ≠ "" ∨ (Section.mk "" "x\n").code_text ≠ "" :=
  parse_sections_nonempty dycco0 "x" c_lang [Section.mk "" "x\n"] (by decide)
    (Section.mk "" "x\n") (by decide)

-- === String plumbing lemmas ===

lemma strExt {a b : String} (h : a.data = b.data) : a = b := by
  cases a; cases b; cases h; rfl

lemma strData_append (a b : String) : (a ++ b).data = a.data ++ b.data := by
  cases a; cases b; rfl

lemma strApp_assoc (a b c : String) : a ++ b ++ c = a ++ (b ++ c) := by
  apply strExt; simp [strData_append]

lemma strApp_empty (a : String) : a ++ "" = a := by
  apply strExt; simp [strData_append]

lemma strEmpty_app (a : String) : "" ++ a = a := by
  apply strExt
  have h0 : ("" : String).data = [] := rfl
  simp [strData_append, h0]

/-- Concatenation of a list of strings. -/
def strConcat : List String → String
  | [] => ""
  | s :: rest => s ++ strConcat rest

lemma strConcat_data : ∀ (l : List String), (strConcat l).data = (l.map String.data).flatten
  | [] => rfl
  | s :: rest => by simp [strConcat, strData_append, strConcat_data rest]

lemma splitChar_ne_nil (sep : Char) (cs : List Char) : splitChar sep cs ≠ [] := by
  induction cs with
  | nil => simp [splitChar]
  | cons c rest ih =>
    unfold splitChar
    split
    · simp
    · cases hsp : splitChar sep rest with
      | nil => exact absurd hsp ih
      | cons l ls => simp

lemma splitChar_flatten (sep : Char) (cs : List Char) :
    ((splitChar sep cs).map (· ++ [sep])).flatten = cs ++ [sep] := by
  induction cs with
  | nil => rfl
  | cons c rest ih =>
    unfold splitChar
    split
    · rename_i hc
      subst hc
      simpa using ih
    · cases hsp : splitChar sep rest with
      | nil => exact absurd hsp (splitChar_ne_nil sep rest)
      | cons l ls =>
        rw [hsp] at ih
        simpa using ih

lemma linesOf_ne_nil (s : String) : linesOf s ≠ [] := by
  unfold linesOf
  intro hc
  exact splitChar_ne_nil '\n' s.data (List.map_eq_nil_iff.mp hc)

/-- Reassembling the lines with trailing newlines gives the source text plus
one final newline. -/
lemma strConcat_linesOf (s : String) :
    strConcat ((linesOf s).map (fun l => l ++ "\n")) = s ++ "\n" := by
  apply strExt
  rw [strConcat_data, strData_append]
  unfold linesOf
  have hgen : ∀ (L : List (List Char)),
      (((L.map (fun l => (⟨l⟩ : String))).map (fun l => l ++ "\n")).map String.data).flatten
        = (L.map (· ++ ['\n'])).flatten := by
    intro L
    induction L with
    | nil => rfl
    | cons a t ih =>
      simp only [List.map_cons, List.flatten_cons, ih, strData_append]
  rw [hgen, splitChar_flatten]

-- === Lemmas about whitespace-only lines (claim C3) ===

lemma pyLstrip_ws {s : String} (h : s.data.all isPySpace = true) : pyLstrip s = "" := by
  unfold pyLstrip
  have hd : s.data.dropWhile isPySpace = [] := by
    rw [List.dropWhile_eq_nil_iff]
    exact fun x hx => List.all_eq_true.mp h x hx
  rw [hd]

lemma pyRstrip_ws {s : String} (h : s.data.all isPySpace = true) : pyRstrip s = "" := by
  unfold pyRstrip
  have hd : s.data.reverse.dropWhile isPySpace = [] := by
    rw [List.dropWhile_eq_nil_iff]
    exact fun x hx => List.all_eq_true.mp h x (List.mem_reverse.mp hx)
  rw [hd]; rfl

lemma pyStrip_ws {s : String} (h : s.data.all isPySpace = true) : pyStrip s = "" := by
  unfold pyStrip
  rw [pyLstrip_ws h]
  rfl

lemma pyStartsWith_empty {p : String} (h : p ≠ "") : pyStartsWith "" p = false := by
  unfold pyStartsWith
  cases hp : p.data with
  | nil => exact absurd (strExt hp) h
  | cons c rest => rfl

lemma pyEndsWith_empty {p : String} (h : p ≠ "") : pyEndsWith "" p = false := by
  unfold pyEndsWith
  unfold List.isSuffixOf
  cases hp : p.data with
  | nil => exact absurd (strExt hp) h
  | cons c rest => simp

lemma isPrefixOf_all {l₁ l₂ : List Char} (hp : l₁.isPrefixOf l₂ = true)
    (h : l₂.all isPySpace = true) : l₁.all isPySpace = true := by
  have hpre : l₁ <+: l₂ := List.isPrefixOf_iff_prefix.mp hp
  exact List.all_eq_true.mpr fun x hx => List.all_eq_true.mp h x (hpre.subset hx)

lemma matchSymAfterWs_ws_none {sym : List Char} (hsym : ¬ sym.all isPySpace = true) :
    ∀ {cs : List Char}, cs.all isPySpace = true → matchSymAfterWs sym cs = none := by
  intro cs
  induction cs with
  | nil =>
    intro _
    unfold matchSymAfterWs
    have hpre : sym.isPrefixOf [] = false := by
      cases hp : sym.isPrefixOf [] with
      | false => rfl
      | true => exact absurd (isPrefixOf_all hp rfl) hsym
    rw [hpre]
    rfl
  | cons c rest ih =>
    intro hall
    have hc : isPySpace c = true := List.all_eq_true.mp hall c (List.mem_cons_self c rest)
    have hrest : rest.all isPySpace = true :=
      List.all_eq_true.mpr fun x hx => List.all_eq_true.mp hall x (List.mem_cons_of_mem c hx)
    have hpre : sym.isPrefixOf (c :: rest) = false := by
      cases hp : sym.isPrefixOf (c :: rest) with
      | false => rfl
      | true => exact absurd (isPrefixOf_all hp hall) hsym
    unfold matchSymAfterWs
    rw [hc, ih hrest, hpre]
    simp

lemma commentSub_ws_none {sym l : String} (hsym : ¬ sym.data.all isPySpace = true)
    (hl : l.data.all isPySpace = true) : commentSub sym l = none := by
  unfold commentSub
  rw [matchSymAfterWs_ws_none hsym hl]
  rfl

/-- A line that is classified as plain code by the section-splitting loop:
no delimiter at its fringes, no comment-marker match, not in a multi-line
run. -/
lemma parseStep_code_line {sym ms me l : String} {st : PState}
    (h1 : pyStartsWith (pyLstrip l) ms = false) (h2 : pyEndsWith (pyRstrip l) ms = false)
    (h3 : pyStartsWith (pyLstrip l) me = false) (h4 : pyEndsWith (pyRstrip l) me = false)
    (hc : commentSub sym l = none) (hml : st.multiLine = false) :
    parseStep sym (some (ms, me)) st l =
      { st with processAsCode := true, hasCode := true,
                codeText := st.codeText ++ l ++ "\n" } := by
  dsimp only [parseStep]
  rw [h1, h2, h3, h4]
  dsimp only [commentBranch]
  rw [hc, hml]
  simp [hml]

/-- The first loop is the identity on lines that never start (after
stripping) with the multi-line opener. -/
lemma convertLines_id {sym ms me : String} :
    ∀ (ls : List String), (∀ l ∈ ls, pyStartsWith (pyStrip l) ms = false) →
      convertLines sym (some (ms, me)) ls false = .ok ls := by
  intro ls
  induction ls with
  | nil => intro _; rfl
  | cons l t ih =>
    intro hall
    have hcv : convertLine sym ms me false l = (l, false) := by
      dsimp only [convertLine]
      rw [hall l (List.mem_cons_self l t)]
      simp
    unfold convertLines
    dsimp only
    rw [hcv]
    dsimp only
    rw [ih (fun x hx => hall x (List.mem_cons_of_mem l hx))]
    rfl

lemma foldl_ws_lines {sym ms me : String} (hsym : ¬ sym.data.all isPySpace = true)
    (hms : ms ≠ "") (hme : me ≠ "") :
    ∀ (lines : List String) (st : PState), lines ≠ [] →
      (∀ l ∈ lines, l.data.all isPySpace = true) → st.multiLine = false →
      lines.foldl (parseStep sym (some (ms, me))) st =
        { st with hasCode := true, processAsCode := true,
                  codeText := st.codeText ++ strConcat (lines.map (fun l => l ++ "\n")) } := by
  intro lines
  induction lines with
  | nil => intro st hne; exact absurd rfl hne
  | cons l rest ih =>
    intro st _ hws hml
    have hl : l.data.all isPySpace = true := hws l (List.mem_cons_self l rest)
    have hstep : parseStep sym (some (ms, me)) st l =
        { st with processAsCode := true, hasCode := true,
                  codeText := st.codeText ++ l ++ "\n" } := by
      apply parseStep_code_line
      · rw [pyLstrip_ws hl]; exact pyStartsWith_empty hms
      · rw [pyRstrip_ws hl]; exact pyEndsWith_empty hms
      · rw [pyLstrip_ws hl]; exact pyStartsWith_empty hme
      · rw [pyRstrip_ws hl]; exact pyEndsWith_empty hme
      · exact commentSub_ws_none hsym hl
      · exact hml
    rw [List.foldl_cons, hstep]
    cases rest with
    | nil =>
      simp only [List.foldl_nil, List.map_cons, List.map_nil, strConcat]
      congr 1
      rw [strApp_empty, strApp_assoc]
    | cons r rest2 =>
      rw [ih { st with processAsCode := true, hasCode := true,
                       codeText := st.codeText ++ l ++ "\n" }
            (by simp) (fun x hx => hws x (List.mem_cons_of_mem l hx)) hml]
      simp only [List.map_cons, strConcat]
      congr 1
      simp [strApp_assoc]

/-- Claim C3, amended: for a generic-path language with both multi-line
delimiters (delimiters non-empty, comment symbol not whitespace-only),
parsing an input consisting only of blank (whitespace-only) lines yields
exactly ONE section, with empty `docs_text` and with `code_text` equal to
the input plus a trailing newline — not zero sections: blank lines are
classified as code and the final `save` emits them. -/
theorem parse_blank_lines (dp : String → Except PyErr (List DyccoSec))
    (L : Language) (ms me : String) (src : String)
    (hL : L.multi = some (ms, me)) (hn : L.name ≠ "python")
    (hsym : ¬ L.comment_symbol.data.all isPySpace = true)
    (hms : ms ≠ "") (hme : me ≠ "")
    (hws : ∀ l ∈ linesOf src, l.data.all isPySpace = true) :
    parse dp src L = .ok [⟨"", src ++ "\n"⟩] := by
  unfold parse
  rw [if_neg hn, hL]
  dsimp only
  cases hlines : linesOf src with
  | nil => exact absurd hlines (linesOf_ne_nil src)
  | cons l0 rest =>
    have hall : ∀ l ∈ l0 :: rest, l.data.all isPySpace = true := hlines ▸ hws
    have hl0 : l0.data.all isPySpace = true := hall l0 (List.mem_cons_self l0 rest)
    have hsheb : pyStartsWith l0 "#!" = false := by
      cases hp : pyStartsWith l0 "#!" with
      | false => rfl
      | true =>
        have hws2 : ("#!" : String).data.all isPySpace = true := isPrefixOf_all hp hl0
        exact absurd hws2 (by decide)
    dsimp only
    rw [hsheb]
    rw [if_neg Bool.false_ne_true]
    have hid : convertLines L.comment_symbol (some (ms, me)) (l0 :: rest) false =
        .ok (l0 :: rest) := by
      apply convertLines_id
      intro l hl
      rw [pyStrip_ws (hall l hl)]
      exact pyStartsWith_empty hms
    rw [hid]
    simp only [Except.map]
    rw [foldl_ws_lines hsym hms hme (l0 :: rest) initState (by simp) hall rfl]
    dsimp only [initState]
    have hcode : ("" : String) ++ strConcat ((l0 :: rest).map (fun l => l ++ "\n")) =
        src ++ "\n" := by
      rw [strEmpty_app, ← hlines, strConcat_linesOf]
    rw [hcode]
    unfold save
    have hne : ¬ (("" : String) = "" ∧ src ++ "\n" = "") := by
      intro hand
      have hdat := congrArg String.data hand.2
      rw [strData_append] at hdat
      simp at hdat
    rw [if_neg hne]
    rfl

/-- Witness for `parse_blank_lines` on the two-blank-line input `" \n\t"`
under the C language. -/
theorem parse_blank_lines_witness :
    parse dycco0 " \n\t" c_lang = .ok [⟨"", " \n\t\n"⟩] :=
  parse_blank_lines dycco0 c_lang "/*" "*/" " \n\t" rfl (by decide) (by decide)
    (by decide) (by decide) (by decide)

-- === Lemmas: the code round trip (claim C6) ===

/-- The concatenation, in order, of the `code_text` of the sections. -/
def concatCode : List Section → String
  | [] => ""
  | s :: rest => s.code_text ++ concatCode rest

lemma concatCode_append : ∀ (a b : List Section),
    concatCode (a ++ b) = concatCode a ++ concatCode b
  | [], b => (strEmpty_app _).symm
  | s :: rest, b => by
    show s.code_text ++ concatCode (rest ++ b) =
      (s.code_text ++ concatCode rest) ++ concatCode b
    rw [concatCode_append rest b, strApp_assoc]

lemma concatCode_save (secs : List Section) (d c : String) :
    concatCode (save secs d c) = concatCode secs ++ c := by
  unfold save
  split
  · rename_i hand
    rw [hand.2, strApp_empty]
  · rw [concatCode_append]
    simp only [concatCode]
    rw [strApp_empty]

/-- A line on which the section-splitting loop's multi-line delimiter check
(and the normalization pass) cannot fire: no delimiter at the stripped
line's start or end. -/
def noDelimLine (ms me l : String) : Prop :=
  pyStartsWith (pyLstrip l) ms = false ∧ pyEndsWith (pyRstrip l) ms = false ∧
    pyStartsWith (pyLstrip l) me = false ∧ pyEndsWith (pyRstrip l) me = false ∧
    pyStartsWith (pyStrip l) ms = false

instance (ms me l : String) : Decidable (noDelimLine ms me l) :=
  inferInstanceAs (Decidable
    (pyStartsWith (pyLstrip l) ms = false ∧ pyEndsWith (pyRstrip l) ms = false ∧
      pyStartsWith (pyLstrip l) me = false ∧ pyEndsWith (pyRstrip l) me = false ∧
      pyStartsWith (pyStrip l) ms = false))

/-- A comment line flushes the pending section and never touches the code
buffer; the flags stay lowered. -/
lemma parseStep_comment_line {sym ms me l rest0 : String} {st : PState}
    (h1 : pyStartsWith (pyLstrip l) ms = false) (h2 : pyEndsWith (pyRstrip l) ms = false)
    (h3 : pyStartsWith (pyLstrip l) me = false) (h4 : pyEndsWith (pyRstrip l) me = false)
    (hc : commentSub sym l = some rest0) (hml : st.multiLine = false) :
    parseStep sym (some (ms, me)) st l =
      (if st.hasCode then
        { st with sections := save st.sections st.docsText st.codeText,
                  hasCode := false, docsText := "" ++ rest0 ++ "\n", codeText := "",
                  processAsCode := false }
      else { st with docsText := st.docsText ++ rest0 ++ "\n", processAsCode := false }) := by
  dsimp only [parseStep]
  rw [h1, h2, h3, h4, hml]
  dsimp only [commentBranch]
  rw [hc]
  cases hhc : st.hasCode <;> simp [hhc, hml]

/-- The per-line effect on the code concatenation for a delimiter-free line:
a comment line contributes nothing, any other line contributes itself plus
a newline. -/
lemma parseStep_nodelim_measure (sym : String) {ms me l : String} {st : PState}
    (h : noDelimLine ms me l) (hml : st.multiLine = false) (hms2 : st.multiString = false) :
    (parseStep sym (some (ms, me)) st l).multiLine = false ∧
    (parseStep sym (some (ms, me)) st l).multiString = false ∧
    concatCode (parseStep sym (some (ms, me)) st l).sections ++
        (parseStep sym (some (ms, me)) st l).codeText =
      (concatCode st.sections ++ st.codeText) ++
        (if (commentSub sym l).isSome then "" else l ++ "\n") := by
  obtain ⟨h1, h2, h3, h4, _⟩ := h
  cases hcs : commentSub sym l with
  | none =>
    rw [parseStep_code_line h1 h2 h3 h4 hcs hml]
    refine ⟨hml, hms2, ?_⟩
    simp only [Option.isSome_none, Bool.false_eq_true, if_false]
    rw [strApp_assoc, strApp_assoc]
  | some rest0 =>
    rw [parseStep_comment_line h1 h2 h3 h4 hcs hml]
    cases hhc : st.hasCode with
    | false => refine ⟨?_, ?_, ?_⟩ <;> simp [hhc, hml, hms2, strApp_empty]
    | true =>
      refine ⟨?_, ?_, ?_⟩ <;>
        simp [hhc, hml, hms2, concatCode_save, strApp_empty]

/-- The contribution of the non-comment lines, in order. -/
def codeJoin (sym : String) : List String → String
  | [] => ""
  | l :: rest => (if (commentSub sym l).isSome then "" else l ++ "\n") ++ codeJoin sym rest

lemma codeJoin_eq_filter (sym : String) : ∀ (lines : List String),
    codeJoin sym lines =
      strConcat ((lines.filter (fun l => (commentSub sym l).isNone)).map (fun l => l ++ "\n"))
  | [] => rfl
  | l :: rest => by
    unfold codeJoin
    cases hcs : commentSub sym l with
    | none =>
      simp only [hcs, Option.isSome_none, Bool.false_eq_true, if_false, List.filter_cons,
        Option.isNone_none, List.map_cons, strConcat]
      rw [codeJoin_eq_filter sym rest]
    | some r =>
      simp only [hcs, Option.isSome_some, if_true, List.filter_cons, Option.isNone_some,
        Bool.false_eq_true, if_false]
      rw [strEmpty_app, codeJoin_eq_filter sym rest]

lemma foldl_nodelim (sym : String) {ms me : String} : ∀ (lines : List String) (st : PState),
    (∀ l ∈ lines, noDelimLine ms me l) → st.multiLine = false → st.multiString = false →
    (lines.foldl (parseStep sym (some (ms, me))) st).multiLine = false ∧
    (lines.foldl (parseStep sym (some (ms, me))) st).multiString = false ∧
    concatCode (lines.foldl (parseStep sym (some (ms, me))) st).sections ++
        (lines.foldl (parseStep sym (some (ms, me))) st).codeText =
      (concatCode st.sections ++ st.codeText) ++ codeJoin sym lines := by
  intro lines
  induction lines with
  | nil =>
    intro st _ hml hms2
    exact ⟨hml, hms2, (strApp_empty _).symm⟩
  | cons l rest ih =>
    intro st hsafe hml hms2
    have hstep := parseStep_nodelim_measure sym
      (hsafe l (List.mem_cons_self l rest)) hml hms2
    rw [List.foldl_cons]
    obtain ⟨ihml, ihms, ihmeas⟩ := ih (parseStep sym (some (ms, me)) st l)
      (fun x hx => hsafe x (List.mem_cons_of_mem l hx)) hstep.1 hstep.2.1
    refine ⟨ihml, ihms, ?_⟩
    rw [ihmeas, hstep.2.2]
    have hcj : codeJoin sym (l :: rest) =
        (if (commentSub sym l).isSome then "" else l ++ "\n") ++ codeJoin sym rest := rfl
    rw [hcj]
    exact strApp_assoc _ _ _

/-- Claim C6, amended: for a generic-path language with both multi-line
delimiters, on inputs none of whose lines carries a delimiter at its
stripped fringes (so the block-comment machinery never fires) and whose
first line is not a shebang, the concatenation of the emitted sections'
`code_text` is exactly the non-comment lines in their original order, each
with a trailing newline — no code line is lost, reordered or duplicated. -/
theorem parse_code_concat (dp : String → Except PyErr (List DyccoSec))
    (L : Language) (ms me src : String) (secs : List Section)
    (hL : L.multi = some (ms, me)) (hn : L.name ≠ "python")
    (hsheb : pyStartsWith ((linesOf src).headD "") "#!" = false)
    (hsafe : ∀ l ∈ linesOf src, noDelimLine ms me l)
    (h : parse dp src L = .ok secs) :
    concatCode secs =
      strConcat (((linesOf src).filter
          (fun l => (commentSub L.comment_symbol l).isNone)).map (fun l => l ++ "\n")) := by
  unfold parse at h
  rw [if_neg hn, hL] at h
  dsimp only at h
  cases hlines : linesOf src with
  | nil => exact absurd hlines (linesOf_ne_nil src)
  | cons l0 rest =>
    rw [hlines] at h hsafe hsheb
    simp only [List.headD_cons] at hsheb
    dsimp only at h
    rw [hsheb, if_neg Bool.false_ne_true] at h
    rw [convertLines_id (l0 :: rest) (fun l hl => (hsafe l hl).2.2.2.2)] at h
    simp only [Except.map, Except.ok.injEq] at h
    subst h
    rw [concatCode_save]
    have hfold := foldl_nodelim L.comment_symbol (l0 :: rest) initState hsafe rfl rfl
    rw [hfold.2.2, codeJoin_eq_filter]
    dsimp only [initState, concatCode]
    rw [strEmpty_app, strEmpty_app]

/-- Witness for `parse_code_concat`: a comment line and two code lines under
the C language. -/
theorem parse_code_concat_witness :
    concatCode [⟨"c\n", "x = 1\ny = 2\n"⟩] =
      strConcat (((linesOf "// c\nx = 1\ny = 2").filter
          (fun l => (commentSub "//" l).isNone)).map (fun l => l ++ "\n")) :=
  parse_code_concat dycco0 c_lang "/*" "*/" "// c\nx = 1\ny = 2"
    [⟨"c\n", "x = 1\ny = 2\n"⟩] rfl (by decide) (by decide) (by decide) (by decide)

-- === Claim C8: language-selection errors ===

/-- Claim C8: `get_language` fails exactly when an explicit override names a
language absent from the descriptor table, or (with no override) both the
extension lookup and the content-based guess fail; in the override case the
`ValueError` carries the attempted language name. -/
theorem get_language_error_iff (source : Option String) (code : String)
    (language_name : Option String) (guess_lexer : String → Option String) :
    ((∃ e, get_language source code language_name guess_lexer = .error e) ↔
      ((∃ n, language_name = some n ∧ findByName n = none) ∨
        (language_name = none ∧ extLookup source = none ∧
          (∀ g, guess_lexer code = some g → findByName g = none)))) ∧
    (∀ n, language_name = some n → findByName n = none →
      get_language source code language_name guess_lexer =
        .error (.valueError ("Unknown forced language: " ++ n))) := by
  constructor
  · cases hln : language_name with
    | some n =>
      cases hfn : findByName n with
      | some L => simp [get_language, hfn]
      | none => simp [get_language, hfn]
    | none =>
      cases hext : extLookup source with
      | some L => simp [get_language, hext]
      | none =>
        cases hg : guess_lexer code with
        | some g =>
          cases hfg : findByName g with
          | some L => simp [get_language, hext, hg, hfg]
          | none => simp [get_language, hext, hg, hfg]
        | none => simp [get_language, hext, hg]
  · intro n hn hfn
    subst hn
    simp [get_language, hfn]

/-- Witness for `get_language_error_iff`: forcing an unknown language name
errors, with the name carried in the message. -/
theorem get_language_error_iff_witness :
    get_language none "x = 1" (some "klingon") (fun _ => none) =
      .error (.valueError "Unknown forced language: klingon") :=
  (get_language_error_iff none "x = 1" (some "klingon") (fun _ => none)).2
    "klingon" rfl (by decide)

-- === Claim C9: the cross-reference rewrite ===

/-- Claim C9, counterexample: in `"[[a[[foo.py]]"` the substring
`[[foo.py]]` is present and not preceded by a backtick, but the leftmost
lazy match consumes `[[a[[foo.py]]` whole, so the output's only link URL is
`a[[foo.html` and no link with URL (basename) `foo.html` appears. -/
theorem preprocess_crossref_counterexample :
    preprocess "[[a[[foo.py]]" true "docs" = .ok " [a[[foo.py](a[[foo.html)" ∧
      ¬ ("](foo.html)".data <:+: (" [a[[foo.py](a[[foo.html)".data)) := by
  constructor
  · decide
  · decide

/-- The section-name rewrite leaves any text whose first character is not
`=` unchanged (the pattern is anchored and starts with `[=]+`). -/
lemma sectionNameSub_id {c : String}
    (h : ∀ ch, c.data.head? = some ch → ch ≠ '=') : sectionNameSub c = c := by
  have heqs : c.data.takeWhile (· = '=') = [] := by
    cases hd : c.data with
    | nil => rfl
    | cons ch t =>
      have hne : ch ≠ '=' := h ch (by rw [hd]; rfl)
      simp [List.takeWhile_cons, hne]
  unfold sectionNameSub
  dsimp only
  rw [heqs]
  simp

/-- The last character before the current scan position: the last of the
consumed prefix, or the initial `prev` when nothing was consumed. -/
def prevAfter (p : List Char) (prev : Option Char) : Option Char :=
  match p.reverse with
  | c :: _ => some c
  | [] => prev

lemma prevAfter_cons (c : Char) (p : List Char) (prev : Option Char) :
    prevAfter (c :: p) prev = prevAfter p (some c) := by
  unfold prevAfter
  rw [List.reverse_cons]
  cases hr : p.reverse with
  | nil => rfl
  | cons d t => rfl

/-- Where no `[[` occurs, the cross-reference scan copies the text. -/
lemma crossrefAux_no_match (pp : Bool) (outdir : String) :
    ∀ (cs : List Char) (fuel : Nat) (prev : Option Char),
      ¬ (['[', '['] <:+: cs) → crossrefAux pp outdir fuel prev cs = .ok cs := by
  intro cs
  induction cs with
  | nil => intro fuel prev _; cases fuel <;> rfl
  | cons c rest ih =>
    intro fuel prev h
    cases fuel with
    | zero => rfl
    | succ fuel =>
      have hcond : ¬ (c = '[' ∧ rest.head? = some '[' ∧ prev ≠ some backtickChar) := by
        rintro ⟨hc1, hc2, -⟩
        cases rest with
        | nil => simp at hc2
        | cons c2 rest2 =>
          simp only [List.head?_cons, Option.some.injEq] at hc2
          exact h ⟨[], rest2, by rw [hc1, hc2]; rfl⟩
      have hrest : ¬ (['[', '['] <:+: rest) := fun hi => h (List.infix_cons hi)
      show (if c = '[' ∧ rest.head? = some '[' ∧ prev ≠ some backtickChar then _ else _) = _
      rw [if_neg hcond, ih fuel (some c) hrest]
      rfl

lemma lazyScan_target (s : List Char) :
    lazyScan ("foo.py]]".data ++ s) = some ("foo.py".data, s) := by
  simp [lazyScan]

lemma replaceCrossref_target (pp : Bool) (outdir : String) :
    replaceCrossref pp outdir "foo.py" =
      .ok (" [foo.py](" ++ pyBasename (destination "foo.py" pp outdir false "html") ++ ")") := by
  unfold replaceCrossref
  rw [show ("foo.py" : String).data.contains '#' = false from by decide]
  rfl

/-- Scanning `p ++ [[foo.py]] ++ s` where `p ++ "["` has no `[[`, the
character before the target is not a backtick, and `s` has no `[[`:
the target alone is rewritten. -/
lemma crossrefAux_insert (pp : Bool) (outdir : String) (s : List Char)
    (hs : ¬ (['[', '['] <:+: s)) :
    ∀ (p : List Char) (fuel : Nat) (prev : Option Char),
      ¬ (['[', '['] <:+: (p ++ ['['])) →
      prevAfter p prev ≠ some backtickChar →
      p.length < fuel →
      crossrefAux pp outdir fuel prev (p ++ ("[[foo.py]]".data ++ s)) =
        .ok (p ++ ((" [foo.py](" ++
          pyBasename (destination "foo.py" pp outdir false "html") ++ ")").data ++ s)) := by
  intro p
  induction p with
  | nil =>
    intro fuel prev hp hbt hfuel
    cases fuel with
    | zero => exact absurd hfuel (by simp)
    | succ fuel =>
      have hbt0 : prev ≠ some backtickChar := hbt
      have hstep : crossrefAux pp outdir (fuel + 1) prev
          ('[' :: ('[' :: ("foo.py]]".data ++ s))) =
          if ('[' : Char) = '[' ∧ ('[' :: ("foo.py]]".data ++ s)).head? = some '[' ∧
              prev ≠ some backtickChar then
            match lazyScan ('[' :: ("foo.py]]".data ++ s)).tail with
            | some (t, after) =>
              (replaceCrossref pp outdir ⟨t⟩).bind fun rep =>
                (crossrefAux pp outdir fuel (some ']') after).map
                  fun tail => rep.data ++ tail
            | none =>
              (crossrefAux pp outdir fuel (some '[')
                  ('[' :: ("foo.py]]".data ++ s))).map
                fun tail => '[' :: tail
          else
            (crossrefAux pp outdir fuel (some '[')
                ('[' :: ("foo.py]]".data ++ s))).map
              fun tail => '[' :: tail := rfl
      show crossrefAux pp outdir (fuel + 1) prev
          ([] ++ ("[[foo.py]]".data ++ s)) = _
      rw [show ([] ++ ("[[foo.py]]".data ++ s)) =
        ('[' :: ('[' :: ("foo.py]]".data ++ s))) from rfl]
      rw [hstep, if_pos ⟨rfl, rfl, hbt0⟩]
      rw [show ('[' :: ("foo.py]]".data ++ s)).tail = "foo.py]]".data ++ s from rfl]
      rw [lazyScan_target]
      show (replaceCrossref pp outdir ⟨"foo.py".data⟩).bind _ = _
      rw [show (⟨"foo.py".data⟩ : String) = "foo.py" from rfl, replaceCrossref_target]
      show (crossrefAux pp outdir fuel (some ']') s).map _ = _
      rw [crossrefAux_no_match pp outdir s fuel (some ']') hs]
      rfl
  | cons c p' ih =>
    intro fuel prev hp hbt hfuel
    cases fuel with
    | zero => exact absurd hfuel (by simp)
    | succ fuel =>
      have hcond : ¬ (c = '[' ∧ (p' ++ ("[[foo.py]]".data ++ s)).head? = some '[' ∧
          prev ≠ some backtickChar) := by
        rintro ⟨hc1, hc2, -⟩
        apply hp
        cases p' with
        | nil =>
          refine ⟨[], [], ?_⟩
          rw [hc1]
          rfl
        | cons c2 p'' =>
          simp only [List.cons_append, List.head?_cons, Option.some.injEq] at hc2
          exact ⟨[], p'' ++ ['['], by rw [hc1, hc2]; rfl⟩
      have hp' : ¬ (['[', '['] <:+: (p' ++ ['['])) := by
        intro hi
        exact hp (List.infix_cons hi)
      have hbt' : prevAfter p' (some c) ≠ some backtickChar := by
        rw [← prevAfter_cons c p' prev]
        exact hbt
      show (if c = '[' ∧ (p' ++ ("[[foo.py]]".data ++ s)).head? = some '[' ∧
            prev ≠ some backtickChar then _ else _) = _
      rw [if_neg hcond]
      show (crossrefAux pp outdir fuel (some c) (p' ++ ("[[foo.py]]".data ++ s))).map _ = _
      rw [ih fuel (some c) hp' hbt' (Nat.lt_of_succ_lt_succ hfuel)]
      rfl

/-- Claim C9, amended: on documentation text `p ++ "[[foo.py]]" ++ s` where
`p ++ "["` contains no `[[` (so the target is the leftmost match), `p` does
not end with a backtick and does not start with `=`, and `s` contains no
`[[`, `preprocess` with a non-empty `outdir` rewrites exactly the target
into a link whose URL is `basename(destination("foo.py"))` under the same
`preserve_paths`/`outdir` configuration. -/
theorem preprocess_crossref (p s outdir : String) (pp : Bool)
    (h1 : ¬ ("[[".data <:+: (p ++ "[").data))
    (h2 : pyEndsWith p "`" = false)
    (h3 : pyStartsWith p "=" = false)
    (h4 : outdir ≠ "")
    (h5 : ¬ ("[[".data <:+: s.data)) :
    preprocess (p ++ "[[foo.py]]" ++ s) pp outdir =
      .ok (p ++ " [foo.py](" ++
        pyBasename (destination "foo.py" pp outdir false "html") ++ ")" ++ s) := by
  unfold preprocess
  rw [if_neg h4]
  have hid : sectionNameSub (p ++ "[[foo.py]]" ++ s) = p ++ "[[foo.py]]" ++ s := by
    apply sectionNameSub_id
    intro ch hch
    rw [strData_append, strData_append] at hch
    cases hpd : p.data with
    | nil =>
      rw [hpd] at hch
      simp only [List.nil_append, List.cons_append, List.head?_cons,
        Option.some.injEq] at hch
      rw [← hch]
      decide
    | cons c t =>
      rw [hpd] at hch
      simp only [List.cons_append, List.head?_cons, Option.some.injEq] at hch
      subst hch
      intro heq
      subst heq
      unfold pyStartsWith at h3
      rw [hpd] at h3
      simp [List.isPrefixOf, show ("=" : String).data = ['='] from rfl] at h3
  rw [hid]
  dsimp only
  have hdata : (p ++ "[[foo.py]]" ++ s).data = p.data ++ ("[[foo.py]]".data ++ s.data) := by
    rw [strData_append, strData_append, List.append_assoc]
  rw [hdata]
  have hbt : prevAfter p.data none ≠ some backtickChar := by
    unfold prevAfter
    cases hr : p.data.reverse with
    | nil => simp
    | cons c t =>
      intro hc
      simp only [Option.some.injEq] at hc
      subst hc
      have hbtend : pyEndsWith p "`" = true := by
        unfold pyEndsWith List.isSuffixOf
        rw [show ("`" : String).data = [backtickChar] from by decide]
        rw [hr]
        simp [List.isPrefixOf]
      rw [hbtend] at h2
      simp at h2
  have h1' : ¬ (['[', '['] <:+: (p.data ++ ['['])) := by
    intro hi
    apply h1
    rw [strData_append]
    exact hi
  have h10 : ("[[foo.py]]".data).length = 10 := by decide
  have hfuel : p.data.length < (p.data ++ ("[[foo.py]]".data ++ s.data)).length := by
    rw [List.length_append, List.length_append, h10]
    omega
  rw [crossrefAux_insert pp outdir s.data h5 p.data _ none h1' hbt hfuel]
  simp only [Except.map, Except.ok.injEq]
  apply strExt
  simp [strData_append, List.append_assoc]

/-- Witness for `preprocess_crossref` at concrete text, preserving paths
into `docs`. -/
theorem preprocess_crossref_witness :
    preprocess ("see " ++ "[[foo.py]]" ++ " here") true "docs" =
      .ok ("see " ++ " [foo.py](" ++
        pyBasename (destination "foo.py" true "docs" false "html") ++ ")" ++ " here") :=
  preprocess_crossref "see " " here" "docs" true (by decide) (by decide) (by decide)
    (by decide) (by decide)


end Pycco
